import Mathlib

/-
Verification development for the quiz-session core of `app.js` (AI-Quiz).

The stateful browser program is shallowly embedded: the central `state`
object becomes the `QuizState` structure, each state-mutating function of
the source becomes a pure Lean function from state to state, and the wall
clock (`Date.now()`) becomes an explicit `Nat` millisecond parameter.
`decodeHTML` in the source decodes HTML entities through a DOM textarea;
it is kept abstract here as an explicit `dec : String → String` parameter
threaded through every definition that decodes text, so every theorem
holds for the actual decoder.  DOM rendering is modelled only where the
source stores data in it that later logic reads (the timer text, the
performance remark, the active screen).  Calls to `submitQuiz` are
additionally recorded in a ghost `submissions` list so that "submission
happens exactly once with reason r" is statable.
-/

/-- A quiz question as built by `fetchQuestions` in app.js:
`{id, question, correct, incorrect, choices, visited, answerIndex}`. -/
structure Question where
  id : Nat
  question : String
  correct : String
  incorrect : List String
  choices : List String
  visited : Bool
  answerIndex : Option Nat
deriving Repr, DecidableEq, Inhabited

/-- One entry of the `items` array persisted by `submitQuiz`
(fields `question`, `userAnswer`, `correct`, `timeMs`). -/
structure AttemptItem where
  question : String
  userAnswer : Option String
  correct : String
  timeMs : Nat
deriving Repr, DecidableEq, Inhabited

/-- The attempt record persisted by `submitQuiz` / `saveAttempt`
(fields `completedAt`, `reason`, `correct`, `total`, `scorePct`, `items`). -/
structure Attempt where
  completedAt : Nat
  reason : String
  correct : Nat
  total : Nat
  scorePct : Nat
  items : List AttemptItem
deriving Repr, DecidableEq, Inhabited

/-- The central `state` object of app.js, plus the pieces of DOM state the
core logic reads back (`timerText` for `#timer`, `perfText` for
`#performance-summary`, `screen` for the `.screen.active` element), the
persisted attempt list for the current email (`attemptsStore`, the
localStorage value behind `saveAttempt`/`loadAttempts`), and a ghost log
`submissions` of the reasons passed to `submitQuiz`.  `timerRunning`
models `timerInterval` being a live interval id. -/
structure QuizState where
  email : String
  questions : List Question
  current : Nat
  startedAt : Option Nat
  durationMs : Nat
  timerRunning : Bool
  cluesLeft : Nat
  usedClues : List (Nat × String)
  usedClueTypes : List String
  warnings : Nat
  maxWarnings : Nat
  perQuestionTimeMs : List Nat
  currentStartedAt : Option Nat
  attemptsStore : List Attempt
  screen : String
  timerText : String
  perfText : String
  submissions : List String
deriving Repr, DecidableEq, Inhabited

/-- `String(n).padStart(2,'0')` for a natural number, as used by the timer
and report formatting in app.js. -/
def pad2 (n : Nat) : String := if n < 10 then "0" ++ toString n else toString n

/-- The `mm:ss` rendering computed inside `tick` in `startTimer`:
minutes `floor(remaining/60000)`, seconds `floor((remaining%60000)/1000)`,
both zero-padded to two digits. -/
def fmtTime (remaining : Nat) : String :=
  pad2 (remaining / 60000) ++ ":" ++ pad2 (remaining % 60000 / 1000)

/-- `stopTimingCurrent` of app.js: if a question is open
(`currentStartedAt != null`), fold the elapsed wall-clock delta into
`perQuestionTimeMs[current]` and close it.  `t` is `Date.now()`. -/
def stopTimingCurrent (t : Nat) (s : QuizState) : QuizState :=
  match s.currentStartedAt with
  | some st =>
      { s with
        perQuestionTimeMs :=
          s.perQuestionTimeMs.set s.current (s.perQuestionTimeMs.getD s.current 0 + (t - st)),
        currentStartedAt := none }
  | none => s

/-- `navigateToQuestion` of app.js.  Guards: empty question list or
out-of-bounds target are no-ops (a negative target, also rejected by the
source, is unrepresentable with `Nat`).  Otherwise close timing at `t1`,
move `current`, reopen timing at `t2` (the source calls `Date.now()`
twice), and mark the target question visited (done by the
`renderQuestion` call in the source). -/
def navigateToQuestion (t1 t2 : Nat) (targetIndex : Nat) (s : QuizState) : QuizState :=
  if s.questions.length = 0 then s
  else if s.questions.length ≤ targetIndex then s
  else
    let s1 := stopTimingCurrent t1 s
    let q := s1.questions.getD targetIndex default
    { s1 with
      current := targetIndex,
      currentStartedAt := some t2,
      questions := s1.questions.set targetIndex { q with visited := true } }

/-- The per-question correctness test of `submitQuiz`:
`q.answerIndex !== null && decodeHTML(q.choices[q.answerIndex]) === decodeHTML(q.correct)`. -/
def isCorrectPick (dec : String → String) (q : Question) : Bool :=
  match q.answerIndex with
  | some i => dec (q.choices.getD i "") == dec q.correct
  | none => false

/-- The `forEach` accumulation of the correct count in `submitQuiz`. -/
def countCorrect (dec : String → String) (qs : List Question) : Nat :=
  qs.foldl (fun acc q => if isCorrectPick dec q then acc + 1 else acc) 0

/-- Models `Math.round((correct/total)*100)` from `submitQuiz`:
round-half-up on the exact rational `100*correct/total`, i.e.
`⌊(200*correct+total)/(2*total)⌋`.  For the quiz-sized operands involved
the double-precision computation of the source agrees with the exact
rational rounding (the rational is never within floating error of a tie
it does not hit exactly). -/
def roundPct (correct total : Nat) : Nat := (200 * correct + total) / (2 * total)

/-- The performance summary chosen by `submitQuiz` (and
`renderReportFromAttempt`). -/
def perfRemark (correct : Nat) : String :=
  if 12 ≤ correct then "Excellent! You nailed it."
  else if 8 ≤ correct then "Good job! Keep pushing for excellence."
  else if 5 ≤ correct then "Fair attempt. A bit more practice will help."
  else "Needs improvement. Start with the fundamentals."

/-- The `items` array built inside the persisted attempt in `submitQuiz`. -/
def mkAttemptItems (dec : String → String) (s : QuizState) : List AttemptItem :=
  s.questions.enum.map (fun p =>
    { question := p.2.question,
      userAnswer := p.2.answerIndex.map (fun i => dec (p.2.choices.getD i "")),
      correct := dec p.2.correct,
      timeMs := s.perQuestionTimeMs.getD p.1 0 })

/-- `submitQuiz(reason)` of app.js at wall-clock time `t`: close timing,
compute the score, pick the performance remark, persist the attempt
(`saveAttempt` appends it to the stored list), and switch to the report
screen.  The source calls `Date.now()` separately for `completedAt`;
both calls are modelled by the same `t`.  The ghost `submissions` log
records the reason.  Note the source does not clear `timerInterval`
here; callers that stop the timer do it themselves. -/
def submitQuiz (dec : String → String) (t : Nat) (reason : String) (s : QuizState) : QuizState :=
  let s1 := stopTimingCurrent t s
  let correct := countCorrect dec s1.questions
  let scorePct := roundPct correct s1.questions.length
  let attempt : Attempt :=
    { completedAt := t, reason := reason, correct := correct,
      total := s1.questions.length, scorePct := scorePct,
      items := mkAttemptItems dec s1 }
  { s1 with
    perfText := perfRemark correct,
    attemptsStore := s1.attemptsStore ++ [attempt],
    submissions := s1.submissions ++ [reason],
    screen := "report-screen" }

/-- One execution of `tick` inside `startTimer` at wall-clock time `now`.
A tick only happens while the interval is scheduled (`timerRunning`);
`remaining = Math.max(0, endAt - now)` is the truncated subtraction
`st + durationMs - now`; the display is updated on every tick; on
`remaining === 0` the interval is cleared and `submitQuiz('Time up')`
runs.  The timer is only started after `startedAt` is set, so the
`none` branch is unreachable in program traces. -/
def tick (dec : String → String) (now : Nat) (s : QuizState) : QuizState :=
  if s.timerRunning then
    match s.startedAt with
    | some st =>
        let remaining := st + s.durationMs - now
        let s1 := { s with timerText := fmtTime remaining }
        if remaining = 0 then submitQuiz dec now "Time up" { s1 with timerRunning := false }
        else s1
    | none => s
  else s

/-- A sequence of timer ticks at the given wall-clock times. -/
def runTicks (dec : String → String) (times : List Nat) (s : QuizState) : QuizState :=
  times.foldl (fun s t => tick dec t s) s

/-- The auto-submission reason used by `addWarning`. -/
def cheatReason : String := "Cheating not allowed (max warnings exceeded)"

/-- `addWarning` of app.js: increment `warnings`; when the incremented
count reaches `maxWarnings`, clear the timer interval and auto-submit
with `cheatReason`. -/
def addWarning (dec : String → String) (t : Nat) (s : QuizState) : QuizState :=
  let s1 := { s with warnings := s.warnings + 1 }
  if s1.maxWarnings ≤ s1.warnings then
    submitQuiz dec t cheatReason { s1 with timerRunning := false }
  else s1

/-- The `visibilitychange` handler wired in `wire`: an attention-lost
event (document became hidden) calls `addWarning` only while the quiz
screen is the active screen.  The 300 ms cross-fade of `showScreen` is a
presentation detail outside the spec's scope; screen switching is
modelled as atomic. -/
def attentionLost (dec : String → String) (t : Nat) (s : QuizState) : QuizState :=
  if s.screen = "quiz-screen" then addWarning dec t s else s

/-- A sequence of attention-lost events at the given wall-clock times. -/
def runEvents (dec : String → String) (times : List Nat) (s : QuizState) : QuizState :=
  times.foldl (fun s t => attentionLost dec t s) s

/-- JS `Array.prototype.filter` with an index predicate
(`arr.filter((_, i) => p(i))`), recursing with the index counter. -/
def filterIdxFrom {α : Type} (p : Nat → Bool) : Nat → List α → List α
  | _, [] => []
  | n, x :: xs => if p n then x :: filterIdxFrom p (n + 1) xs else filterIdxFrom p (n + 1) xs

/-- Keep exactly the elements whose index satisfies `p`, in order. -/
def filterIdx {α : Type} (p : Nat → Bool) (l : List α) : List α := filterIdxFrom p 0 l

/-- The 50/50 branch of `applyClue`.  `correctIdx` is
`choices.findIndex(c => decodeHTML(c) === decodeHTML(q.correct))`
(`none` models `-1`); `wrongIdxs` the remaining indices; `pick` models
`Math.floor(Math.random()*wrongIdxs.length)` so `keepWrong` is
`wrongIdxs[pick]` (`none` models `undefined` when out of range, which
then matches no index in the filter, as in JS).  The source always
executes `q.answerIndex = null` afterwards. -/
def fiftyFifty (dec : String → String) (pick : Nat) (q : Question) : Question :=
  let correctIdx : Option Nat := q.choices.findIdx? (fun c => dec c == dec q.correct)
  let wrongIdxs : List Nat := (List.range q.choices.length).filter (fun i => correctIdx != some i)
  let keepWrong : Option Nat := wrongIdxs[pick]?
  { q with
    choices := filterIdx (fun i => correctIdx == some i || keepWrong == some i) q.choices,
    answerIndex := none }

/-- The `first` branch of `applyClue`: strip non-alphanumeric characters
from the decoded correct answer; reveal the uppercased first character if
any remain. -/
def firstLetterMsg (dec : String → String) (q : Question) : String :=
  let plainCorrect := (String.mk ((dec q.correct).data.filter Char.isAlphanum)).trim
  match plainCorrect.data with
  | c :: _ => "The correct answer starts with: \"" ++ String.mk [c.toUpper] ++ "\""
  | [] => "No hint available for this one. Try another clue!"

/-- Character class `[a-z0-9 ]` of the source's sanitizing regexes. -/
def lowerAlnumSpace (c : Char) : Bool :=
  ('a' ≤ c && c ≤ 'z') || ('0' ≤ c && c ≤ '9') || c == ' '

/-- `.replace(/[^a-z0-9 ]/g, ' ')` on an already lowercased character
sequence. -/
def sanitizeChars (l : List Char) : List Char :=
  l.map (fun c => if lowerAlnumSpace c then c else ' ')

/-- JS `String.prototype.split(' ')`: split at every single space
character, keeping empty pieces (n consecutive spaces yield n+1
pieces), on the character sequence of the string. -/
def splitChars : List Char → List (List Char)
  | [] => [[]]
  | c :: cs =>
      let r := splitChars cs
      if c = ' ' then [] :: r
      else (c :: r.headD []) :: r.tail

/-- `decodeHTML(s).toLowerCase().replace(/[^a-z0-9 ]/g,' ').split(' ')`
(`toLowerCase` acts per character on the text involved). -/
def jsWords (dec : String → String) (s : String) : List String :=
  (splitChars (sanitizeChars ((dec s).data.map Char.toLower))).map String.mk

/-- The word list of the `guess` branch: split words of length > 3. -/
def wordsOf (dec : String → String) (s : String) : List String :=
  (jsWords dec s).filter (fun w => 3 < w.length)

/-- The fold of the `guess` branch of `applyClue` selecting the
highest-scoring choice (first index wins ties because only a strictly
greater score replaces the best).  The source scores `2` per prompt-word
match and `0.2` otherwise in floating point; scores here are scaled by 5
to the integers `10`/`1`, which preserves every comparison the source
makes on quiz-sized inputs. -/
def smartGuessIdx (dec : String → String) (q : Question) : Nat :=
  let words := wordsOf dec q.question
  (q.choices.enum.foldl
    (fun best p =>
      let w := wordsOf dec p.2
      let score : Int := w.foldl (fun acc t => acc + (if words.contains t then 10 else 1)) 0
      if best.2 < score then (p.1, score) else best)
    (0, (-1 : Int))).1

/-- The message produced by the `guess` branch. -/
def smartGuessMsg (dec : String → String) (q : Question) : String :=
  "My smart guess would be: \"" ++ dec (q.choices.getD (smartGuessIdx dec q) "")
    ++ "\". Use your judgment!"

/-- The stopword set of the `keywords` branch, verbatim from the source
(the source list repeats `into` and `were`; set membership is unaffected). -/
def stopwords : List String :=
  ["the","and","with","from","that","this","which","when","what","were","your","about",
   "into","than","then","have","has","had","who","whom","them","they","their","there",
   "here","been","also","only","after","before","over","under","much","many","some",
   "most","more","less","very","such","like","into","between","among","upon","onto",
   "does","did","doing","because","while","where","how","why","for","not","but","you",
   "are","was","were","its","it","his","her","she","him","he","our","ours","us"]

/-- Tokenization of the `keywords` branch: lowercase, sanitize, split on
spaces, keep words of length > 3 that are not stopwords. -/
def kwTokens (dec : String → String) (prompt : String) : List String :=
  (jsWords dec prompt).filter (fun w => 3 < w.length && !(stopwords.contains w))

/-- One step of filling the frequency `Map`:
`freq.set(t, (freq.get(t)||0)+1)`.  A JS `Map` keeps insertion order, so
the association list appends unseen keys and bumps seen ones in place. -/
def bumpTok (m : List (String × Nat)) (t : String) : List (String × Nat) :=
  if m.any (fun p => p.1 == t) then
    m.map (fun p => if p.1 == t then (p.1, p.2 + 1) else p)
  else m ++ [(t, 1)]

/-- `[...freq.entries()]`: token/count pairs in first-encounter order. -/
def freqEntries (ts : List String) : List (String × Nat) := ts.foldl bumpTok []

/-- Stable insertion for descending count order: the inserted element
goes before the first element whose count is at most its own, so among
equal counts the element originating earlier in the input stays first. -/
def stableInsertDesc (x : String × Nat) : List (String × Nat) → List (String × Nat)
  | [] => [x]
  | y :: ys => if y.2 ≤ x.2 then x :: y :: ys else y :: stableInsertDesc x ys

/-- `entries.sort((a,b) => b[1]-a[1])`: ECMAScript requires a stable
sort, and every stable sort produces the same output, so the JS sort is
embedded as stable insertion sort by descending count. -/
def stableSortDesc : List (String × Nat) → List (String × Nat)
  | [] => []
  | x :: xs => stableInsertDesc x (stableSortDesc xs)

/-- `top` of the `keywords` branch: sort the frequency entries by
descending count (stably) and keep the first five tokens. -/
def topKeywords (dec : String → String) (prompt : String) : List String :=
  ((stableSortDesc (freqEntries (kwTokens dec prompt))).take 5).map Prod.fst

/-- The message produced by the `keywords` branch. -/
def keywordsMsg (dec : String → String) (q : Question) : String :=
  let top := topKeywords dec q.question
  if top.isEmpty then "No strong keywords detected; read the question carefully."
  else "Context keywords to focus on: "
    ++ String.intercalate ", " (top.map (fun w => "“" ++ w ++ "”")) ++ "."

/-- Outcome of an `applyClue` call: the two early returns (the first is
silent, the second shows the "already been used" alert), or success with
the hint message written to `#ai-output`. -/
inductive ClueOutcome where
  | noCluesLeft
  | alreadyUsed
  | applied (message : String)
deriving Repr, DecidableEq

/-- The 50/50 success message. -/
def fiftyMsg : String := "I removed two unlikely options. Focus on the remaining two."

/-- The property names a plain JS object literal inherits from
`Object.prototype`.  `state.usedClueTypes` is the literal `{}`, so the
lookup `state.usedClueTypes[type]` walks the prototype chain: for these
names it yields the inherited member (a function, or `Object.prototype`
itself for `__proto__`), every one of which is truthy. -/
def objectProtoKeys : List String :=
  ["constructor", "toString", "toLocaleString", "valueOf", "hasOwnProperty",
   "isPrototypeOf", "propertyIsEnumerable", "__defineGetter__", "__defineSetter__",
   "__lookupGetter__", "__lookupSetter__", "__proto__"]

/-- `applyClue(type)` of app.js.  Guards in source order: `cluesLeft <= 0`
(with `Nat`, `= 0`) returns silently; a truthy `state.usedClueTypes[type]`
alerts ("already been used") and returns — the lookup is truthy both for
a type locked earlier (an own key set to `true`) and for any string
naming an `Object.prototype` member, which the plain object inherits;
both rejections mutate nothing.  Otherwise the branch for the type
computes the message (an unrecognized type leaves it `''`), only
`'5050'` mutates the current question, and the shared tail decrements
`cluesLeft`, logs `{q: current, type}` in `usedClues`, and locks the
type in `usedClueTypes`.  `pick` is the random draw used only by
`'5050'`. -/
def applyClue (dec : String → String) (pick : Nat) (type : String) (s : QuizState) :
    QuizState × ClueOutcome :=
  if s.cluesLeft = 0 then (s, .noCluesLeft)
  else if decide (type ∈ s.usedClueTypes ∨ type ∈ objectProtoKeys) then (s, .alreadyUsed)
  else
    let q := s.questions.getD s.current default
    let message :=
      if type = "5050" then fiftyMsg
      else if type = "first" then firstLetterMsg dec q
      else if type = "guess" then smartGuessMsg dec q
      else if type = "keywords" then keywordsMsg dec q
      else ""
    let questions1 :=
      if type = "5050" then s.questions.set s.current (fiftyFifty dec pick q)
      else s.questions
    ({ s with
        questions := questions1,
        cluesLeft := s.cluesLeft - 1,
        usedClues := s.usedClues ++ [(s.current, type)],
        usedClueTypes := s.usedClueTypes ++ [type] },
     .applied message)

/-- A raw question of the Open Trivia DB payload (or of the fallback set,
whose `q`/`c`/`i` fields play the same roles). -/
structure RawItem where
  question : String
  correct_answer : String
  incorrect_answers : List String
deriving Repr, DecidableEq, Inhabited

/-- The per-item mapping of `fetchQuestions`: `choices` is a shuffle of
the correct answer followed by the incorrect ones; `shuf` stands for the
random permutation produced by `shuffle`. -/
def mkQuestion (shuf : List String → List String) (p : Nat × RawItem) : Question :=
  { id := p.1, question := p.2.question, correct := p.2.correct_answer,
    incorrect := p.2.incorrect_answers,
    choices := shuf (p.2.correct_answer :: p.2.incorrect_answers),
    visited := false, answerIndex := none }

/-- The built-in fallback question set of `fetchQuestions`. -/
def fallbackItems : List RawItem :=
  [{ question := "What is the capital of France?", correct_answer := "Paris",
     incorrect_answers := ["Lyon", "Marseille", "Nice"] },
   { question := "Which planet is known as the Red Planet?", correct_answer := "Mars",
     incorrect_answers := ["Venus", "Jupiter", "Saturn"] },
   { question := "Who wrote “1984”?", correct_answer := "George Orwell",
     incorrect_answers := ["Aldous Huxley", "Ray Bradbury", "J.R.R. Tolkien"] },
   { question := "What is H2O commonly known as?", correct_answer := "Water",
     incorrect_answers := ["Hydrogen", "Oxygen", "Salt"] },
   { question := "Which language runs in a web browser?", correct_answer := "JavaScript",
     incorrect_answers := ["Python", "C++", "Java"] }]

/-- `fetchQuestions` of app.js.  `outcome` is `some items` when the fetch
and JSON parse succeeded (`items` is `data.results` when it is an array,
else `[]`), and `none` on any thrown error, in which case the fallback
set is used.  The `finally` block always resets `perQuestionTimeMs` to an
all-zero array of the questions' length. -/
def fetchQuestions (shuf : List String → List String) (outcome : Option (List RawItem))
    (s : QuizState) : QuizState :=
  let items := match outcome with | some its => its | none => fallbackItems
  let qs := items.enum.map (mkQuestion shuf)
  { s with questions := qs, perQuestionTimeMs := List.replicate qs.length 0 }

/-- JSON values, the image of `JSON.stringify`/`JSON.parse` for the data
persisted by `saveAttempt` (numbers are integral here). -/
inductive JVal where
  | jnull
  | jnum (n : Int)
  | jstr (s : String)
  | jarr (elems : List JVal)
  | jobj (fields : List (String × JVal))

/-- The field names of a serialized JSON object, in order. -/
def objKeys : JVal → List String
  | .jobj fields => fields.map Prod.fst
  | _ => []

/-- Serialization of one report item exactly as `submitQuiz` builds it:
keys `question`, `userAnswer` (null when unanswered), `correct`,
`timeMs`, in insertion order (which `JSON.stringify` preserves for these
non-index keys). -/
def serializeItem (it : AttemptItem) : JVal :=
  .jobj [("question", .jstr it.question),
         ("userAnswer", match it.userAnswer with | some u => .jstr u | none => .jnull),
         ("correct", .jstr it.correct),
         ("timeMs", .jnum (Int.ofNat it.timeMs))]

/-- Reading one report item back (`JSON.parse` then field access as done
by `renderReportFromAttempt`). -/
def parseItem : JVal → Option AttemptItem
  | .jobj [("question", .jstr q), ("userAnswer", .jstr u), ("correct", .jstr c),
           ("timeMs", .jnum t)] =>
      if 0 ≤ t then some { question := q, userAnswer := some u, correct := c, timeMs := t.toNat }
      else none
  | .jobj [("question", .jstr q), ("userAnswer", .jnull), ("correct", .jstr c),
           ("timeMs", .jnum t)] =>
      if 0 ≤ t then some { question := q, userAnswer := none, correct := c, timeMs := t.toNat }
      else none
  | _ => none

/-- Serialization of one attempt exactly as `submitQuiz` builds the
object passed to `saveAttempt`: keys `completedAt`, `reason`, `correct`,
`total`, `scorePct`, `items`. -/
def serializeAttempt (a : Attempt) : JVal :=
  .jobj [("completedAt", .jnum (Int.ofNat a.completedAt)),
         ("reason", .jstr a.reason),
         ("correct", .jnum (Int.ofNat a.correct)),
         ("total", .jnum (Int.ofNat a.total)),
         ("scorePct", .jnum (Int.ofNat a.scorePct)),
         ("items", .jarr (a.items.map serializeItem))]

/-- Parse every element of a JSON array of items, failing if any fails. -/
def parseItems : List JVal → Option (List AttemptItem)
  | [] => some []
  | x :: xs =>
      match parseItem x, parseItems xs with
      | some it, some its => some (it :: its)
      | _, _ => none

/-- Reading one attempt back. -/
def parseAttempt : JVal → Option Attempt
  | .jobj [("completedAt", .jnum ca), ("reason", .jstr r), ("correct", .jnum c),
           ("total", .jnum tt), ("scorePct", .jnum sp), ("items", .jarr its)] =>
      if 0 ≤ ca ∧ 0 ≤ c ∧ 0 ≤ tt ∧ 0 ≤ sp then
        (parseItems its).map (fun items =>
          { completedAt := ca.toNat, reason := r, correct := c.toNat,
            total := tt.toNat, scorePct := sp.toNat, items := items })
      else none
  | _ => none

/-- The stored value for an email key: the JSON array written by
`saveAttempt` (`localStorage.setItem(key, JSON.stringify(list))`). -/
def serializeAttempts (l : List Attempt) : JVal := .jarr (l.map serializeAttempt)

/-- Parse every element of the stored JSON array of attempts. -/
def parseAttemptElems : List JVal → Option (List Attempt)
  | [] => some []
  | x :: xs =>
      match parseAttempt x, parseAttemptElems xs with
      | some a, some as' => some (a :: as')
      | _, _ => none

/-- The list read back by `loadAttempts`
(`JSON.parse(localStorage.getItem(key) || '[]')`). -/
def parseAttempts : JVal → Option (List Attempt)
  | .jarr xs => parseAttemptElems xs
  | _ => none

/-- The strict "comes before" order described by the spec for the
keywords report: higher frequency first, ties broken by smaller
first-encounter position.  A triple is `(position, token, count)`. -/
def lexBeforeB (p q : Nat × String × Nat) : Bool :=
  q.2.2 < p.2.2 || (p.2.2 == q.2.2 && p.1 < q.1)

/-- Insertion into a list sorted by `lexBeforeB`. -/
def specInsert (x : Nat × String × Nat) :
    List (Nat × String × Nat) → List (Nat × String × Nat)
  | [] => [x]
  | y :: ys => if lexBeforeB x y then x :: y :: ys else y :: specInsert x ys

/-- Sorting by `lexBeforeB` (insertion sort). -/
def specSort : List (Nat × String × Nat) → List (Nat × String × Nat)
  | [] => []
  | x :: xs => specInsert x (specSort xs)

/-- The spec's description of the keywords report, stated independently
of the implementation's stable sort: enumerate the distinct tokens with
their first-encounter positions, rank them by descending frequency with
ties broken by first-encounter position, and keep the first five. -/
def specKeywords (dec : String → String) (prompt : String) : List String :=
  ((specSort (List.enum (freqEntries (kwTokens dec prompt)))).take 5).map (fun p => p.2.1)

/-- The distinct members of `ts` in order of first encounter. -/
def seenKeys (ts : List String) : List String :=
  ts.foldl (fun acc t => if t ∈ acc then acc else acc ++ [t]) []

/-- Invariant tying `warnings` to the active screen and to the number of
cheating auto-submissions recorded: the cap is 4, the count never
exceeds it, an active quiz has strictly fewer than 4 warnings and no
cheating submission yet, and at most one cheating submission ever
happens.  It holds for a fresh quiz session and is preserved by
attention-lost events. -/
def WarnInv (s : QuizState) : Prop :=
  s.maxWarnings = 4 ∧ s.warnings ≤ 4 ∧
  (s.screen = "quiz-screen" → s.warnings < 4) ∧
  s.submissions.count cheatReason ≤ 1 ∧
  (s.screen = "quiz-screen" → s.submissions.count cheatReason = 0)

/-- Invariant for the countdown: while the interval is live no "Time up"
submission has been recorded, and there is never more than one. -/
def TimerInv (s : QuizState) : Prop :=
  (s.timerRunning = true → s.submissions.count "Time up" = 0) ∧
  s.submissions.count "Time up" ≤ 1

/-- A two-choice question answered correctly (choice 0 is the correct
text). -/
def qA : Question :=
  { id := 0, question := "q", correct := "A", incorrect := ["B"],
    choices := ["A", "B"], visited := true, answerIndex := some 0 }

/-- The same question answered incorrectly. -/
def qB : Question := { qA with answerIndex := some 1 }

/-- A fresh `state` object as initialized at the top of app.js. -/
def baseState : QuizState :=
  { email := "user@example.com", questions := [], current := 0, startedAt := none,
    durationMs := 1800000, timerRunning := false, cluesLeft := 3, usedClues := [],
    usedClueTypes := [], warnings := 0, maxWarnings := 4, perQuestionTimeMs := [],
    currentStartedAt := none, attemptsStore := [], screen := "start-screen",
    timerText := "", perfText := "", submissions := [] }

/-- A 15-question session with 12 correct answers, ready to submit. -/
def fifteenState : QuizState :=
  { baseState with
      questions := List.replicate 12 qA ++ List.replicate 3 qB,
      perQuestionTimeMs := List.replicate 15 0, screen := "quiz-screen",
      startedAt := some 0 }

/-- A four-choice question whose selected answer is the correct one. -/
def q4 : Question :=
  { id := 0, question := "q", correct := "A", incorrect := ["B", "C", "D"],
    choices := ["A", "B", "C", "D"], visited := true, answerIndex := some 0 }

/-- An active session on the four-choice question. -/
def fourChoiceState : QuizState :=
  { baseState with questions := [q4], perQuestionTimeMs := [0], screen := "quiz-screen" }

/-- A session whose countdown is running from time 0. -/
def timerState : QuizState :=
  { baseState with timerRunning := true, startedAt := some 0, screen := "quiz-screen" }

/-- A fresh session with the quiz screen active. -/
def quizActiveState : QuizState := { baseState with screen := "quiz-screen" }

/-- A session with question 0 open since time 100 and 7 ms recorded. -/
def navState : QuizState :=
  { baseState with
      questions := [q4], perQuestionTimeMs := [7], current := 0,
      currentStartedAt := some 100, screen := "quiz-screen" }

/-
Helper lemmas (shared).
-/

/-- `stopTimingCurrent` touches only `perQuestionTimeMs` and
`currentStartedAt`. -/
theorem stopTiming_questions (t : Nat) (s : QuizState) :
    (stopTimingCurrent t s).questions = s.questions := by
  cases h : s.currentStartedAt <;> simp [stopTimingCurrent, h]

theorem stopTiming_current (t : Nat) (s : QuizState) :
    (stopTimingCurrent t s).current = s.current := by
  cases h : s.currentStartedAt <;> simp [stopTimingCurrent, h]

theorem stopTiming_warnings (t : Nat) (s : QuizState) :
    (stopTimingCurrent t s).warnings = s.warnings := by
  cases h : s.currentStartedAt <;> simp [stopTimingCurrent, h]

theorem stopTiming_maxWarnings (t : Nat) (s : QuizState) :
    (stopTimingCurrent t s).maxWarnings = s.maxWarnings := by
  cases h : s.currentStartedAt <;> simp [stopTimingCurrent, h]

theorem stopTiming_screen (t : Nat) (s : QuizState) :
    (stopTimingCurrent t s).screen = s.screen := by
  cases h : s.currentStartedAt <;> simp [stopTimingCurrent, h]

theorem stopTiming_submissions (t : Nat) (s : QuizState) :
    (stopTimingCurrent t s).submissions = s.submissions := by
  cases h : s.currentStartedAt <;> simp [stopTimingCurrent, h]

theorem stopTiming_timerRunning (t : Nat) (s : QuizState) :
    (stopTimingCurrent t s).timerRunning = s.timerRunning := by
  cases h : s.currentStartedAt <;> simp [stopTimingCurrent, h]

theorem stopTiming_startedAt (t : Nat) (s : QuizState) :
    (stopTimingCurrent t s).startedAt = s.startedAt := by
  cases h : s.currentStartedAt <;> simp [stopTimingCurrent, h]

theorem stopTiming_durationMs (t : Nat) (s : QuizState) :
    (stopTimingCurrent t s).durationMs = s.durationMs := by
  cases h : s.currentStartedAt <;> simp [stopTimingCurrent, h]

theorem stopTiming_attemptsStore (t : Nat) (s : QuizState) :
    (stopTimingCurrent t s).attemptsStore = s.attemptsStore := by
  cases h : s.currentStartedAt <;> simp [stopTimingCurrent, h]

/-- `submitQuiz` projection facts used by the timer and warning proofs. -/
theorem submitQuiz_warnings (dec : String → String) (t : Nat) (r : String) (s : QuizState) :
    (submitQuiz dec t r s).warnings = s.warnings := by
  simp [submitQuiz, stopTiming_warnings]

theorem submitQuiz_maxWarnings (dec : String → String) (t : Nat) (r : String) (s : QuizState) :
    (submitQuiz dec t r s).maxWarnings = s.maxWarnings := by
  simp [submitQuiz, stopTiming_maxWarnings]

theorem submitQuiz_screen (dec : String → String) (t : Nat) (r : String) (s : QuizState) :
    (submitQuiz dec t r s).screen = "report-screen" := by
  simp [submitQuiz]

theorem submitQuiz_submissions (dec : String → String) (t : Nat) (r : String) (s : QuizState) :
    (submitQuiz dec t r s).submissions = s.submissions ++ [r] := by
  simp [submitQuiz, stopTiming_submissions]

theorem submitQuiz_timerRunning (dec : String → String) (t : Nat) (r : String) (s : QuizState) :
    (submitQuiz dec t r s).timerRunning = s.timerRunning := by
  simp [submitQuiz, stopTiming_timerRunning]

theorem submitQuiz_startedAt (dec : String → String) (t : Nat) (r : String) (s : QuizState) :
    (submitQuiz dec t r s).startedAt = s.startedAt := by
  simp [submitQuiz, stopTiming_startedAt]

theorem submitQuiz_durationMs (dec : String → String) (t : Nat) (r : String) (s : QuizState) :
    (submitQuiz dec t r s).durationMs = s.durationMs := by
  simp [submitQuiz, stopTiming_durationMs]

/-
Claim C1.
-/

/-- C1: an `applyClue(type)` call with no clues left or with `type`
already used is rejected (it never yields an `applied` outcome) and
leaves the session unchanged; a call that passes the truthiness guard —
its type neither locked nor naming an `Object.prototype` member, which
none of the four clue-type keys does (final conjunct) — decrements
`cluesLeft` by exactly one, appends exactly `type` to `usedClueTypes`
(so, by the rejection half applied to any later state containing
`type`, the same type can never succeed again), and appends exactly the
pair `(current, type)` to the `usedClues` usage log. -/
theorem C1_applyClue_contract (dec : String → String) (pick : Nat) (type : String)
    (s : QuizState) :
    ((s.cluesLeft = 0 ∨ type ∈ s.usedClueTypes) →
        (applyClue dec pick type s).1 = s ∧
        ∀ m, (applyClue dec pick type s).2 ≠ ClueOutcome.applied m) ∧
    (s.cluesLeft ≠ 0 → type ∉ s.usedClueTypes → type ∉ objectProtoKeys →
        (applyClue dec pick type s).1.cluesLeft = s.cluesLeft - 1 ∧
        (applyClue dec pick type s).1.usedClueTypes = s.usedClueTypes ++ [type] ∧
        type ∈ (applyClue dec pick type s).1.usedClueTypes ∧
        (applyClue dec pick type s).1.usedClues = s.usedClues ++ [(s.current, type)] ∧
        ∃ m, (applyClue dec pick type s).2 = ClueOutcome.applied m) ∧
    ("5050" ∉ objectProtoKeys ∧ "first" ∉ objectProtoKeys ∧
     "guess" ∉ objectProtoKeys ∧ "keywords" ∉ objectProtoKeys) := by
  refine ⟨?_, ?_, by decide⟩
  · rintro (h0 | h1)
    · simp [applyClue, h0]
    · by_cases h0 : s.cluesLeft = 0 <;> simp [applyClue, h0, h1]
  · intro h0 h1 h2
    simp [applyClue, h0, h1, h2]

/-- Witness for C1 at a concrete session: applying `first` to a fresh
four-choice session consumes one clue. -/
theorem C1_applyClue_contract_witness :
    (applyClue id 0 "first" fourChoiceState).1.cluesLeft = 2 := by
  have h := (C1_applyClue_contract id 0 "first" fourChoiceState).2.1
    (by decide) (by decide) (by decide)
  rw [h.1]
  decide

/-
Claim C10.
-/

/-- C10 counterexample: the claim predicts every unused unknown type
with clues remaining is accepted and consumes a clue, but for the
unknown type `constructor` the source guard
`state.usedClueTypes['constructor']` finds the inherited, truthy
`Object.prototype.constructor`, so on a fresh session — three clues
left, nothing used — the call is rejected as already-used and mutates
nothing. -/
theorem C10_counterexample :
    fourChoiceState.cluesLeft ≠ 0 ∧
    "constructor" ∉ fourChoiceState.usedClueTypes ∧
    applyClue id 0 "constructor" fourChoiceState =
      (fourChoiceState, ClueOutcome.alreadyUsed) := by
  decide

/-- C10 (amended): an unrecognized, unused clue type that does not name
an `Object.prototype` member is not rejected: the call succeeds with an
empty hint message, still consumes a clue, locks the unknown type, and
logs it, while leaving the questions untouched; an unrecognized type
that does name an `Object.prototype` member is instead rejected as
already-used with no state change, even though it was never used. -/
theorem C10_unknown_type_amended (dec : String → String) (pick : Nat) (type : String)
    (s : QuizState)
    (h5050 : type ≠ "5050") (hfirst : type ≠ "first") (hguess : type ≠ "guess")
    (hkw : type ≠ "keywords") (h0 : s.cluesLeft ≠ 0) :
    (type ∉ s.usedClueTypes → type ∉ objectProtoKeys →
        applyClue dec pick type s =
          ({ s with
              cluesLeft := s.cluesLeft - 1,
              usedClues := s.usedClues ++ [(s.current, type)],
              usedClueTypes := s.usedClueTypes ++ [type] },
           ClueOutcome.applied "")) ∧
    (type ∈ objectProtoKeys →
        applyClue dec pick type s = (s, ClueOutcome.alreadyUsed)) := by
  constructor
  · intro h1 h2
    simp [applyClue, h0, h1, h2, h5050, hfirst, hguess, hkw]
  · intro h2
    simp [applyClue, h0, h2]

/-- Witness for C10 (amended): the unknown type `wiki`, which is no
`Object.prototype` member name, still consumes a clue and produces the
empty message. -/
theorem C10_unknown_type_amended_witness :
    applyClue id 0 "wiki" fourChoiceState =
      ({ fourChoiceState with
          cluesLeft := 2,
          usedClues := [(0, "wiki")],
          usedClueTypes := ["wiki"] },
       ClueOutcome.applied "") := by
  have h := (C10_unknown_type_amended id 0 "wiki" fourChoiceState
    (by decide) (by decide) (by decide) (by decide) (by decide)).1
    (by decide) (by decide)
  rw [h]
  decide

/-
Claim C9.
-/

/-- C9: however `load()` ends — remote payload (even an empty one) or
fallback — `perQuestionTimeMs` is reset to an all-zero array whose
length is the number of loaded questions. -/
theorem C9_perQuestionTime_zeroed (shuf : List String → List String)
    (outcome : Option (List RawItem)) (s : QuizState) :
    (fetchQuestions shuf outcome s).perQuestionTimeMs =
      List.replicate (fetchQuestions shuf outcome s).questions.length 0 := by
  cases outcome <;> simp [fetchQuestions]

/-
Claim C6.
-/

/-- One report item survives the storage round trip. -/
theorem parseItem_serializeItem (it : AttemptItem) :
    parseItem (serializeItem it) = some it := by
  cases it with
  | mk q ua c tm =>
      cases ua <;> simp [serializeItem, parseItem, Int.toNat_ofNat]

/-- A list of report items survives the storage round trip. -/
theorem parseItems_map_serializeItem (its : List AttemptItem) :
    parseItems (its.map serializeItem) = some its := by
  induction its with
  | nil => rfl
  | cons x xs ih => simp [parseItems, parseItem_serializeItem, ih]

/-- One attempt record survives the storage round trip. -/
theorem parseAttempt_serializeAttempt (a : Attempt) :
    parseAttempt (serializeAttempt a) = some a := by
  cases a with
  | mk ca r c tt sp items =>
      simp [serializeAttempt, parseAttempt, parseItems_map_serializeItem, Int.toNat_ofNat]

/-- A list of attempt records survives the storage round trip. -/
theorem parseAttemptElems_map_serializeAttempt (l : List Attempt) :
    parseAttemptElems (l.map serializeAttempt) = some l := by
  induction l with
  | nil => rfl
  | cons a as ih => simp [parseAttemptElems, parseAttempt_serializeAttempt, ih]

/-- C6 counterexample: the attempt record actually persisted by
`submitQuiz` is serialized with field names `completedAt`, `reason`,
`correct`, `total`, `scorePct`, `items` and per-item `question`,
`userAnswer`, `correct`, `timeMs` — not the §3 names; in particular
`submissionReason` and `promptText` never occur among the keys, so the
claim "field names exactly as defined in §3" is false for this concrete
persisted attempt. -/
theorem C6_counterexample :
    objKeys (serializeAttempt
        ((submitQuiz id 5 "Manual submit" fourChoiceState).attemptsStore.getD 0 default)) =
      ["completedAt", "reason", "correct", "total", "scorePct", "items"] ∧
    "submissionReason" ∉ objKeys (serializeAttempt
        ((submitQuiz id 5 "Manual submit" fourChoiceState).attemptsStore.getD 0 default)) ∧
    objKeys (serializeItem
        (((submitQuiz id 5 "Manual submit" fourChoiceState).attemptsStore.getD 0
            default).items.getD 0 default)) =
      ["question", "userAnswer", "correct", "timeMs"] ∧
    "promptText" ∉ objKeys (serializeItem
        (((submitQuiz id 5 "Manual submit" fourChoiceState).attemptsStore.getD 0
            default).items.getD 0 default)) := by
  decide

/-- C6 (amended): attempt records are persisted with the field names the
code actually uses (`completedAt`, `reason`, `correct`, `total`,
`scorePct`, `items`; per-item `question`, `userAnswer`, `correct`,
`timeMs`), and the stored list round-trips losslessly: parsing the
serialization of any attempt list yields exactly the original records. -/
theorem C6_attempt_roundtrip_amended :
    (∀ l : List Attempt, parseAttempts (serializeAttempts l) = some l) ∧
    (∀ a : Attempt, objKeys (serializeAttempt a) =
        ["completedAt", "reason", "correct", "total", "scorePct", "items"]) ∧
    (∀ it : AttemptItem, objKeys (serializeItem it) =
        ["question", "userAnswer", "correct", "timeMs"]) := by
  refine ⟨?_, ?_, ?_⟩
  · intro l
    simp [parseAttempts, serializeAttempts, parseAttemptElems_map_serializeAttempt]
  · intro a
    simp [serializeAttempt, objKeys]
  · intro it
    cases h : it.userAnswer <;> simp [serializeItem, objKeys]

/-
Claim C2.
-/

/-- The counting fold of `submitQuiz` with an arbitrary start value. -/
theorem foldl_count_eq_countP {α : Type} (p : α → Bool) (l : List α) (n : Nat) :
    l.foldl (fun acc q => if p q then acc + 1 else acc) n = n + l.countP p := by
  induction l generalizing n with
  | nil => simp
  | cons x xs ih =>
      rw [List.foldl_cons, ih, List.countP_cons]
      by_cases h : p x
      · simp [h]
        omega
      · simp [h]

/-- The correct count computed by `submitQuiz` counts exactly the
questions whose selected index is non-null and whose selected decoded
choice text equals the decoded correct answer. -/
theorem countCorrect_eq_countP (dec : String → String) (qs : List Question) :
    countCorrect dec qs = qs.countP (fun q =>
      decide (q.answerIndex ≠ none ∧
        dec (q.choices.getD (q.answerIndex.getD 0) "") = dec q.correct)) := by
  unfold countCorrect
  rw [foldl_count_eq_countP, Nat.zero_add]
  apply List.countP_congr
  intro q _
  cases h : q.answerIndex with
  | none => simp [isCorrectPick, h]
  | some i =>
      by_cases he : dec (q.choices.getD i "") = dec q.correct <;>
        simp [isCorrectPick, h, he]

/-- The threshold characterization of the performance remark. -/
theorem perfRemark_iff (c : Nat) :
    (perfRemark c = "Excellent! You nailed it." ↔ 12 ≤ c) ∧
    (perfRemark c = "Good job! Keep pushing for excellence." ↔ 8 ≤ c ∧ c < 12) ∧
    (perfRemark c = "Fair attempt. A bit more practice will help." ↔ 5 ≤ c ∧ c < 8) ∧
    (perfRemark c = "Needs improvement. Start with the fundamentals." ↔ c < 5) := by
  have dEG : ("Excellent! You nailed it." : String) ≠
      "Good job! Keep pushing for excellence." := by decide
  have dEF : ("Excellent! You nailed it." : String) ≠
      "Fair attempt. A bit more practice will help." := by decide
  have dEN : ("Excellent! You nailed it." : String) ≠
      "Needs improvement. Start with the fundamentals." := by decide
  have dGF : ("Good job! Keep pushing for excellence." : String) ≠
      "Fair attempt. A bit more practice will help." := by decide
  have dGN : ("Good job! Keep pushing for excellence." : String) ≠
      "Needs improvement. Start with the fundamentals." := by decide
  have dFN : ("Fair attempt. A bit more practice will help." : String) ≠
      "Needs improvement. Start with the fundamentals." := by decide
  unfold perfRemark
  split_ifs with h1 h2 h3
  · exact ⟨by simp [h1], iff_of_false dEG (by omega), iff_of_false dEF (by omega),
      iff_of_false dEN (by omega)⟩
  · exact ⟨iff_of_false dEG.symm (by omega), ⟨fun _ => by omega, fun _ => rfl⟩,
      iff_of_false dGF (by omega), iff_of_false dGN (by omega)⟩
  · exact ⟨iff_of_false dEF.symm (by omega), iff_of_false dGF.symm (by omega),
      ⟨fun _ => by omega, fun _ => rfl⟩, iff_of_false dFN (by omega)⟩
  · exact ⟨iff_of_false dEN.symm (by omega), iff_of_false dGN.symm (by omega),
      iff_of_false dFN.symm (by omega), ⟨fun _ => by omega, fun _ => rfl⟩⟩

/-- `roundPct c t` is the floor of `(200c + t)/(2t)`, i.e. the
round-half-up integer rounding of `100c/t`. -/
theorem roundPct_charact (c t : Nat) (ht : t ≠ 0) :
    2 * t * roundPct c t ≤ 200 * c + t ∧
    200 * c + t < 2 * t * roundPct c t + 2 * t := by
  unfold roundPct
  have h1 := Nat.div_add_mod (200 * c + t) (2 * t)
  have h2 : (200 * c + t) % (2 * t) < 2 * t := Nat.mod_lt _ (by omega)
  omega

/-- C2: finalizing a non-empty session persists an attempt whose
`correct` counts exactly the questions with a non-null selection whose
decoded selected choice equals the decoded correct answer, whose
`scorePct` is the round-half-up rounding of `100*correct/total`, and
whose performance remark is the "Excellent"/"Good"/"Fair"/"Needs
improvement" message exactly for `correct ≥ 12`, `8 ≤ correct < 12`,
`5 ≤ correct < 8`, and `correct < 5` respectively. -/
theorem C2_finalize_scoring (dec : String → String) (t : Nat) (reason : String) (s : QuizState)
    (h : s.questions ≠ []) :
    ∃ att : Attempt,
      (submitQuiz dec t reason s).attemptsStore.getLast? = some att ∧
      att.total = s.questions.length ∧
      att.reason = reason ∧
      att.correct = s.questions.countP (fun q =>
        decide (q.answerIndex ≠ none ∧
          dec (q.choices.getD (q.answerIndex.getD 0) "") = dec q.correct)) ∧
      att.scorePct = roundPct att.correct att.total ∧
      2 * att.total * att.scorePct ≤ 200 * att.correct + att.total ∧
      200 * att.correct + att.total < 2 * att.total * att.scorePct + 2 * att.total ∧
      ((submitQuiz dec t reason s).perfText = "Excellent! You nailed it." ↔
        12 ≤ att.correct) ∧
      ((submitQuiz dec t reason s).perfText = "Good job! Keep pushing for excellence." ↔
        8 ≤ att.correct ∧ att.correct < 12) ∧
      ((submitQuiz dec t reason s).perfText = "Fair attempt. A bit more practice will help." ↔
        5 ≤ att.correct ∧ att.correct < 8) ∧
      ((submitQuiz dec t reason s).perfText = "Needs improvement. Start with the fundamentals." ↔
        att.correct < 5) := by
  have hq := stopTiming_questions t s
  have hlen : s.questions.length ≠ 0 := by
    intro hz
    exact h (List.length_eq_zero.mp hz)
  have hstore : (submitQuiz dec t reason s).attemptsStore =
      (stopTimingCurrent t s).attemptsStore ++
        [{ completedAt := t, reason := reason,
           correct := countCorrect dec s.questions,
           total := s.questions.length,
           scorePct := roundPct (countCorrect dec s.questions) s.questions.length,
           items := mkAttemptItems dec (stopTimingCurrent t s) }] := by
    simp [submitQuiz, hq]
  have hperf : (submitQuiz dec t reason s).perfText =
      perfRemark (countCorrect dec s.questions) := by
    simp [submitQuiz, hq]
  have hiff := perfRemark_iff (countCorrect dec s.questions)
  have hchar := roundPct_charact (countCorrect dec s.questions) s.questions.length hlen
  refine ⟨{ completedAt := t, reason := reason,
            correct := countCorrect dec s.questions,
            total := s.questions.length,
            scorePct := roundPct (countCorrect dec s.questions) s.questions.length,
            items := mkAttemptItems dec (stopTimingCurrent t s) }, ?_, rfl, rfl,
    countCorrect_eq_countP dec s.questions, rfl, hchar.1, hchar.2, ?_, ?_, ?_, ?_⟩
  · rw [hstore]
    exact List.getLast?_concat _
  · rw [hperf]; exact hiff.1
  · rw [hperf]; exact hiff.2.1
  · rw [hperf]; exact hiff.2.2.1
  · rw [hperf]; exact hiff.2.2.2

/-- Witness for C2: the spec's scenario — 15 questions, 12 answered
correctly, manual submit — yields correct 12, score 80 %, and the
"Excellent! You nailed it." remark. -/
theorem C2_finalize_scoring_witness :
    (submitQuiz id 9 "Manual submit" fifteenState).perfText = "Excellent! You nailed it." ∧
    ∃ att : Attempt,
      (submitQuiz id 9 "Manual submit" fifteenState).attemptsStore.getLast? = some att ∧
      att.correct = 12 ∧ att.total = 15 ∧ att.scorePct = 80 := by
  obtain ⟨att, hlast, htot, hreason, hcorr, hsc, hle, hlt, hE, hG, hF, hN⟩ :=
    C2_finalize_scoring id 9 "Manual submit" fifteenState (by decide)
  have hc : att.correct = 12 := by rw [hcorr]; decide
  have ht : att.total = 15 := by rw [htot]; decide
  refine ⟨hE.mpr (by omega), att, hlast, hc, ht, ?_⟩
  rw [hsc, hc, ht]
  decide

/-
Claim C3.
-/

/-- A single attention-lost event preserves the warning invariant. -/
theorem warnInv_attentionLost (dec : String → String) (t : Nat) (s : QuizState)
    (h : WarnInv s) : WarnInv (attentionLost dec t s) := by
  obtain ⟨hmax, hw, hwa, hc, hca⟩ := h
  by_cases hs : s.screen = "quiz-screen"
  · have hw4 : s.warnings < 4 := hwa hs
    have hc0 : s.submissions.count cheatReason = 0 := hca hs
    rw [attentionLost, if_pos hs, addWarning]
    by_cases hth : ({ s with warnings := s.warnings + 1 } : QuizState).maxWarnings ≤
        ({ s with warnings := s.warnings + 1 } : QuizState).warnings
    · rw [if_pos hth]
      simp only at hth
      refine ⟨?_, ?_, ?_, ?_, ?_⟩
      · rw [submitQuiz_maxWarnings]; exact hmax
      · rw [submitQuiz_warnings]; simp; omega
      · intro hscr
        rw [submitQuiz_screen] at hscr
        exact absurd hscr (by decide)
      · rw [submitQuiz_submissions]
        simp only [List.count_append]
        simp [hc0]
      · intro hscr
        rw [submitQuiz_screen] at hscr
        exact absurd hscr (by decide)
    · rw [if_neg hth]
      simp only at hth
      rw [hmax] at hth
      exact ⟨hmax, by simp; omega, fun _ => by simp; omega, hc, fun hscr => hca hscr⟩
  · rw [attentionLost, if_neg hs]
    exact ⟨hmax, hw, hwa, hc, hca⟩

/-- The warning invariant is preserved along any event sequence. -/
theorem warnInv_runEvents (dec : String → String) (times : List Nat) (s : QuizState)
    (h : WarnInv s) : WarnInv (runEvents dec times s) := by
  induction times generalizing s with
  | nil => exact h
  | cons t ts ih => exact ih _ (warnInv_attentionLost dec t s h)

/-- C3: starting from any state satisfying the warning invariant (in
particular a fresh session), `warnings` never exceeds `maxWarnings = 4`
along any sequence of attention-lost events and at most one cheating
auto-submission is ever recorded; each event while the quiz screen is
active increments `warnings` by exactly one; the event that takes
`warnings` from 3 to 4 stops the timer, switches to the report screen,
and records exactly one submission with the cheating reason; and events
arriving when the quiz screen is not active (in particular after the
auto-submission) change nothing. -/
theorem C3_warning_cap (dec : String → String) (s : QuizState) (h : WarnInv s) :
    (∀ times : List Nat,
        (runEvents dec times s).warnings ≤ 4 ∧
        (runEvents dec times s).submissions.count cheatReason ≤ 1) ∧
    (∀ t : Nat, s.screen = "quiz-screen" →
        (attentionLost dec t s).warnings = s.warnings + 1) ∧
    (∀ t : Nat, s.screen = "quiz-screen" → s.warnings = 3 →
        (attentionLost dec t s).warnings = 4 ∧
        (attentionLost dec t s).timerRunning = false ∧
        (attentionLost dec t s).screen = "report-screen" ∧
        (attentionLost dec t s).submissions = s.submissions ++ [cheatReason]) ∧
    (∀ t : Nat, s.screen ≠ "quiz-screen" → attentionLost dec t s = s) := by
  obtain ⟨hmax, hw, hwa, hc, hca⟩ := h
  refine ⟨?_, ?_, ?_, ?_⟩
  · intro times
    have hinv := warnInv_runEvents dec times s ⟨hmax, hw, hwa, hc, hca⟩
    exact ⟨hinv.2.1, hinv.2.2.2.1⟩
  · intro t hs
    rw [attentionLost, if_pos hs, addWarning]
    by_cases hth : ({ s with warnings := s.warnings + 1 } : QuizState).maxWarnings ≤
        ({ s with warnings := s.warnings + 1 } : QuizState).warnings
    · rw [if_pos hth, submitQuiz_warnings]
    · rw [if_neg hth]
  · intro t hs h3
    rw [attentionLost, if_pos hs, addWarning]
    have hth : ({ s with warnings := s.warnings + 1 } : QuizState).maxWarnings ≤
        ({ s with warnings := s.warnings + 1 } : QuizState).warnings := by
      simp [hmax, h3]
    rw [if_pos hth]
    refine ⟨?_, ?_, ?_, ?_⟩
    · rw [submitQuiz_warnings]; simp [h3]
    · rw [submitQuiz_timerRunning]
    · rw [submitQuiz_screen]
    · rw [submitQuiz_submissions]
  · intro t hs
    rw [attentionLost, if_neg hs]

/-- Witness for C3: five consecutive attention-lost events on a fresh
active session leave at most four warnings and at most one cheating
submission. -/
theorem C3_warning_cap_witness :
    (runEvents id [1, 2, 3, 4, 5] quizActiveState).warnings ≤ 4 ∧
    (runEvents id [1, 2, 3, 4, 5] quizActiveState).submissions.count cheatReason ≤ 1 := by
  exact (C3_warning_cap id quizActiveState (by unfold WarnInv; decide)).1 [1, 2, 3, 4, 5]

/-
Claim C4.
-/

theorem stopTiming_timerText (t : Nat) (s : QuizState) :
    (stopTimingCurrent t s).timerText = s.timerText := by
  cases h : s.currentStartedAt <;> simp [stopTimingCurrent, h]

theorem submitQuiz_timerText (dec : String → String) (t : Nat) (r : String) (s : QuizState) :
    (submitQuiz dec t r s).timerText = s.timerText := by
  simp [submitQuiz, stopTiming_timerText]

/-- A tick on a stopped timer (interval cleared) changes nothing. -/
theorem tick_not_running (dec : String → String) (now : Nat) (s : QuizState)
    (h : s.timerRunning = false) : tick dec now s = s := by
  simp [tick, h]

/-- Once the interval is cleared, no later tick happens at all. -/
theorem runTicks_stopped (dec : String → String) (times : List Nat) (s : QuizState)
    (h : s.timerRunning = false) : runTicks dec times s = s := by
  induction times with
  | nil => rfl
  | cons t ts ih =>
      show runTicks dec ts (tick dec t s) = s
      rw [tick_not_running dec t s h]
      exact ih

/-- The expiring tick: when the wall clock has reached the deadline, the
tick clears the interval and submits with reason "Time up". -/
theorem tick_expire (dec : String → String) (now : Nat) (s : QuizState) (st : Nat)
    (hrun : s.timerRunning = true) (hst : s.startedAt = some st)
    (hend : st + s.durationMs ≤ now) :
    tick dec now s = submitQuiz dec now "Time up"
      { s with timerText := fmtTime (st + s.durationMs - now), timerRunning := false } := by
  have hrem : st + s.durationMs - now = 0 := by omega
  simp [tick, hrun, hst, hrem]

/-- The non-expiring tick only refreshes the display. -/
theorem tick_live (dec : String → String) (now : Nat) (s : QuizState) (st : Nat)
    (hrun : s.timerRunning = true) (hst : s.startedAt = some st)
    (hend : ¬ st + s.durationMs ≤ now) :
    tick dec now s = { s with timerText := fmtTime (st + s.durationMs - now) } := by
  have hrem : st + s.durationMs - now ≠ 0 := by omega
  simp [tick, hrun, hst, hrem]

/-- A tick preserves the timer invariant. -/
theorem timerInv_tick (dec : String → String) (now : Nat) (s : QuizState)
    (h : TimerInv s) : TimerInv (tick dec now s) := by
  obtain ⟨h0, h1⟩ := h
  by_cases hrun : s.timerRunning = true
  · cases hst : s.startedAt with
    | none => simpa [tick, hrun, hst] using ⟨h0, h1⟩
    | some st =>
        by_cases hend : st + s.durationMs ≤ now
        · rw [tick_expire dec now s st hrun hst hend]
          constructor
          · intro hcontra
            rw [submitQuiz_timerRunning] at hcontra
            cases hcontra
          · rw [submitQuiz_submissions]
            simp [List.count_append, h0 hrun]
        · rw [tick_live dec now s st hrun hst hend]
          exact ⟨fun _ => h0 hrun, h1⟩
  · rw [tick_not_running dec now s (by revert hrun; cases s.timerRunning <;> simp)]
    exact ⟨h0, h1⟩

/-- The timer invariant is preserved along any tick sequence. -/
theorem timerInv_runTicks (dec : String → String) (times : List Nat) (s : QuizState)
    (h : TimerInv s) : TimerInv (runTicks dec times s) := by
  induction times generalizing s with
  | nil => exact h
  | cons t ts ih => exact ih _ (timerInv_tick dec t s h)

/-- Along a tick trace from a live timer, the first tick at or past the
deadline records the single "Time up" submission and permanently stops
the timer. -/
theorem timeUp_exact (dec : String → String) (st : Nat) :
    ∀ (times : List Nat) (s : QuizState),
      s.timerRunning = true → s.startedAt = some st →
      s.submissions.count "Time up" = 0 →
      (∃ tt ∈ times, st + s.durationMs ≤ tt) →
      (runTicks dec times s).submissions.count "Time up" = 1 ∧
      (runTicks dec times s).timerRunning = false := by
  intro times
  induction times with
  | nil =>
      rintro s _ _ _ ⟨tt, htt, _⟩
      simp at htt
  | cons t ts ih =>
      intro s hrun hst hcnt hex
      by_cases hend : st + s.durationMs ≤ t
      · have h1 : (tick dec t s).timerRunning = false := by
          rw [tick_expire dec t s st hrun hst hend, submitQuiz_timerRunning]
        have h2 : (tick dec t s).submissions.count "Time up" = 1 := by
          rw [tick_expire dec t s st hrun hst hend, submitQuiz_submissions]
          simp [List.count_append, hcnt]
        show (runTicks dec ts (tick dec t s)).submissions.count "Time up" = 1 ∧
          (runTicks dec ts (tick dec t s)).timerRunning = false
        rw [runTicks_stopped dec ts _ h1]
        exact ⟨h2, h1⟩
      · obtain ⟨tt, htt, htle⟩ := hex
        have httts : tt ∈ ts := by
          rcases List.mem_cons.mp htt with he | hts
          · exact absurd (he ▸ htle) hend
          · exact hts
        show (runTicks dec ts (tick dec t s)).submissions.count "Time up" = 1 ∧
          (runTicks dec ts (tick dec t s)).timerRunning = false
        rw [tick_live dec t s st hrun hst hend]
        exact ih _ hrun hst hcnt ⟨tt, httts, htle⟩

/-- C4: for a started session with a live countdown anchored at
`startedAt + durationMs`: every tick re-renders the display from the
wall clock as the zero-padded mm:ss of the clamped (never negative)
remaining time; a tick at or past the deadline stops the interval and
records the single "Time up" submission; along any tick trace at most
one — and, once the deadline is reached, exactly one — "Time up"
submission occurs; and a tick on a stopped timer does nothing at all. -/
theorem C4_timer_contract (dec : String → String) (s : QuizState) (st : Nat)
    (hrun : s.timerRunning = true) (hst : s.startedAt = some st)
    (hcnt : s.submissions.count "Time up" = 0) :
    (∀ now : Nat, (tick dec now s).timerText = fmtTime (st + s.durationMs - now)) ∧
    (∀ now : Nat, st + s.durationMs ≤ now →
        (tick dec now s).timerRunning = false ∧
        (tick dec now s).submissions = s.submissions ++ ["Time up"]) ∧
    (∀ times : List Nat, (runTicks dec times s).submissions.count "Time up" ≤ 1) ∧
    (∀ times : List Nat, (∃ tt ∈ times, st + s.durationMs ≤ tt) →
        (runTicks dec times s).submissions.count "Time up" = 1 ∧
        (runTicks dec times s).timerRunning = false) ∧
    (∀ (now : Nat) (s2 : QuizState), s2.timerRunning = false → tick dec now s2 = s2) := by
  refine ⟨?_, ?_, ?_, ?_, ?_⟩
  · intro now
    by_cases hend : st + s.durationMs ≤ now
    · rw [tick_expire dec now s st hrun hst hend, submitQuiz_timerText]
    · rw [tick_live dec now s st hrun hst hend]
  · intro now hend
    rw [tick_expire dec now s st hrun hst hend, submitQuiz_timerRunning,
      submitQuiz_submissions]
    exact ⟨rfl, rfl⟩
  · intro times
    exact (timerInv_runTicks dec times s ⟨fun _ => hcnt, by omega⟩).2
  · intro times hex
    exact timeUp_exact dec st times s hrun hst hcnt hex
  · intro now s2 h2
    exact tick_not_running dec now s2 h2

/-- Witness for C4: a single tick at the 30-minute deadline on a fresh
running timer records exactly one "Time up" submission and stops the
timer. -/
theorem C4_timer_contract_witness :
    (runTicks id [1800000] timerState).submissions.count "Time up" = 1 ∧
    (runTicks id [1800000] timerState).timerRunning = false := by
  exact (C4_timer_contract id timerState 0 rfl rfl rfl).2.2.2.1 [1800000]
    ⟨1800000, by decide, by decide⟩

/-
Claim C7.
-/

/-- C7: navigating to the currently open question folds exactly the open
wall-clock interval into `perQuestionTimeMs[current]`, leaves every
other entry untouched, reopens timing at the navigation instant, and
preserves the total time accounted to the current question (recorded
time plus open interval) across the call. -/
theorem C7_navigate_current_accounting (t1 t2 : Nat) (s : QuizState) (st : Nat)
    (hlen : s.perQuestionTimeMs.length = s.questions.length)
    (hcur : s.current < s.questions.length)
    (hopen : s.currentStartedAt = some st) :
    (navigateToQuestion t1 t2 s.current s).current = s.current ∧
    (navigateToQuestion t1 t2 s.current s).currentStartedAt = some t2 ∧
    (navigateToQuestion t1 t2 s.current s).perQuestionTimeMs =
      s.perQuestionTimeMs.set s.current
        (s.perQuestionTimeMs.getD s.current 0 + (t1 - st)) ∧
    (∀ j, j ≠ s.current →
      (navigateToQuestion t1 t2 s.current s).perQuestionTimeMs.getD j 0 =
        s.perQuestionTimeMs.getD j 0) ∧
    (navigateToQuestion t1 t2 s.current s).perQuestionTimeMs.getD s.current 0 + (t2 - t2) =
      s.perQuestionTimeMs.getD s.current 0 + (t1 - st) := by
  have hne0 : ¬ s.questions.length = 0 := by omega
  have hle : ¬ s.questions.length ≤ s.current := by omega
  have hstop : stopTimingCurrent t1 s =
      { s with
        perQuestionTimeMs := s.perQuestionTimeMs.set s.current
          (s.perQuestionTimeMs.getD s.current 0 + (t1 - st)),
        currentStartedAt := none } := by
    simp [stopTimingCurrent, hopen]
  have hplen : s.current < s.perQuestionTimeMs.length := by omega
  have h1 : (navigateToQuestion t1 t2 s.current s).current = s.current := by
    simp [navigateToQuestion, hne0, hle]
  have h2 : (navigateToQuestion t1 t2 s.current s).currentStartedAt = some t2 := by
    simp [navigateToQuestion, hne0, hle]
  have h3 : (navigateToQuestion t1 t2 s.current s).perQuestionTimeMs =
      s.perQuestionTimeMs.set s.current
        (s.perQuestionTimeMs.getD s.current 0 + (t1 - st)) := by
    simp [navigateToQuestion, hne0, hle, hstop]
  refine ⟨h1, h2, h3, ?_, ?_⟩
  · intro j hj
    simp only [h3, List.getD_eq_getElem?_getD]
    rw [List.getElem?_set_ne (Ne.symm hj)]
  · rw [h3, List.getD_eq_getElem?_getD, List.getElem?_set_self hplen]
    simp

/-- Witness for C7: with 7 ms recorded and the question open since 100,
navigating to the same question at time 150 records 57 ms total. -/
theorem C7_navigate_current_accounting_witness :
    (navigateToQuestion 150 160 navState.current navState).perQuestionTimeMs = [57] := by
  have h := C7_navigate_current_accounting 150 160 navState 100
    (by decide) (by decide) (by decide)
  rw [h.2.2.1]
  decide

/-
Claim C5.
-/

/-- A successful `findIdx?` yields an in-range index whose element
satisfies the predicate. -/
theorem findIdx?_some_spec {α : Type} (p : α → Bool) (d : α) :
    ∀ (l : List α) (n i : Nat), List.findIdx? p l n = some i →
      n ≤ i ∧ i - n < l.length ∧ p (l.getD (i - n) d) = true := by
  intro l
  induction l with
  | nil => intro n i h; rw [List.findIdx?_nil] at h; cases h
  | cons x xs ih =>
      intro n i h
      rw [List.findIdx?_cons] at h
      by_cases hp : p x = true
      · rw [if_pos hp] at h
        have hni : n = i := by
          injection h
        subst hni
        refine ⟨Nat.le_refl n, by simp, ?_⟩
        simpa [Nat.sub_self] using hp
      · rw [if_neg hp] at h
        obtain ⟨h1, h2, h3⟩ := ih (n + 1) i h
        refine ⟨by omega, by simp; omega, ?_⟩
        have hk : i - n = (i - (n + 1)) + 1 := by omega
        rw [hk, List.getD_cons_succ]
        exact h3

/-- Length of the index list left after removing one in-range index. -/
theorem length_filter_range_ne (n ci : Nat) (h : ci < n) :
    ((List.range n).filter (fun i => !(ci == i))).length = n - 1 := by
  induction n with
  | zero => omega
  | succ m ih =>
      rw [List.range_succ, List.filter_append, List.length_append]
      by_cases hm : ci = m
      · have hall : (List.range m).filter (fun i => !(ci == i)) = List.range m := by
          rw [List.filter_eq_self]
          intro a ha
          have haa : a < m := List.mem_range.mp ha
          simp
          omega
        have hone : (([m] : List Nat).filter (fun i => !(ci == i))).length = 0 := by
          simp [List.filter, hm]
        rw [hall, hone]
        simp
      · have hlt : ci < m := by omega
        have hone : (([m] : List Nat).filter (fun i => !(ci == i))).length = 1 := by
          have hb : (!(ci == m)) = true := by simp; omega
          simp [List.filter, hb]
        rw [ih hlt, hone]
        omega

/-- `filterIdxFrom` only looks at the predicate from its start index on. -/
theorem filterIdxFrom_congr {α : Type} (p q : Nat → Bool) :
    ∀ (l : List α) (n : Nat), (∀ i, n ≤ i → p i = q i) →
      filterIdxFrom p n l = filterIdxFrom q n l := by
  intro l
  induction l with
  | nil => intro n _; rfl
  | cons x xs ih =>
      intro n h
      simp only [filterIdxFrom]
      have hrec := ih (n + 1) (fun i hi => h i (by omega))
      by_cases hq : q n = true
      · rw [if_pos (by rw [h n (Nat.le_refl n)]; exact hq), if_pos hq, hrec]
      · rw [if_neg (by rw [h n (Nat.le_refl n)]; exact hq), if_neg hq, hrec]

/-- If the predicate rejects every index from `n` on, nothing is kept. -/
theorem filterIdxFrom_false {α : Type} (p : Nat → Bool) :
    ∀ (l : List α) (n : Nat), (∀ i, n ≤ i → p i = false) →
      filterIdxFrom p n l = [] := by
  intro l
  induction l with
  | nil => intro n _; rfl
  | cons x xs ih =>
      intro n h
      simp only [filterIdxFrom]
      rw [if_neg (by rw [h n (Nat.le_refl n)]; simp)]
      exact ih (n + 1) (fun i hi => h i (by omega))

/-- Keeping exactly one in-range index yields that element. -/
theorem filterIdxFrom_single {α : Type} (c : Nat) (d : α) :
    ∀ (l : List α) (n : Nat), n ≤ c → c < n + l.length →
      filterIdxFrom (fun i => c == i) n l = [l.getD (c - n) d] := by
  intro l
  induction l with
  | nil => intro n h1 h2; simp at h2; omega
  | cons x xs ih =>
      intro n h1 h2
      simp only [filterIdxFrom]
      by_cases hc : c = n
      · rw [if_pos (by simp [hc])]
        have hrest : filterIdxFrom (fun i => c == i) (n + 1) xs = [] := by
          apply filterIdxFrom_false
          intro i hi
          simp
          omega
        rw [hrest, hc, Nat.sub_self, List.getD_cons_zero]
      · rw [if_neg (by simp; omega)]
        have h2' : c < (n + 1) + xs.length := by simp at h2; omega
        rw [ih (n + 1) (by omega) h2']
        have hk : c - n = (c - (n + 1)) + 1 := by omega
        rw [hk, List.getD_cons_succ]

/-- Keeping exactly two in-range indices `a < b` yields those two
elements in order. -/
theorem filterIdxFrom_pair {α : Type} (a b : Nat) (d : α) (hab : a < b) :
    ∀ (l : List α) (n : Nat), n ≤ a → b < n + l.length →
      filterIdxFrom (fun i => a == i || b == i) n l =
        [l.getD (a - n) d, l.getD (b - n) d] := by
  intro l
  induction l with
  | nil => intro n h1 h2; simp at h2; omega
  | cons x xs ih =>
      intro n h1 h2
      simp only [filterIdxFrom]
      have h2' : b < (n + 1) + xs.length := by simp at h2; omega
      by_cases ha : a = n
      · rw [if_pos (by simp; omega)]
        have hrest : filterIdxFrom (fun i => a == i || b == i) (n + 1) xs =
            filterIdxFrom (fun i => b == i) (n + 1) xs := by
          apply filterIdxFrom_congr
          intro i hi
          have hai : (a == i) = false := by simp; omega
          rw [hai, Bool.false_or]
        rw [hrest, filterIdxFrom_single b d xs (n + 1) (by omega) h2']
        have hk : b - n = (b - (n + 1)) + 1 := by omega
        rw [hk, List.getD_cons_succ]
        have hazero : a - n = 0 := by omega
        rw [hazero, List.getD_cons_zero]
      · rw [if_neg (by simp; omega)]
        rw [ih (n + 1) (by omega) h2']
        have hka : a - n = (a - (n + 1)) + 1 := by omega
        have hkb : b - n = (b - (n + 1)) + 1 := by omega
        rw [hka, hkb, List.getD_cons_succ, List.getD_cons_succ]

/-- Characterization of the 50/50 branch: when the correct choice is
found at index `ci` and the random draw is in range, the selection is
always cleared and the choices collapse, in original order, to the
correct choice and the drawn wrong choice. -/
theorem fiftyFifty_spec (dec : String → String) (pick : Nat) (q : Question) (ci : Nat)
    (hci : q.choices.findIdx? (fun c => dec c == dec q.correct) = some ci)
    (hpick : pick + 1 < q.choices.length) :
    ∃ w : Nat, w < q.choices.length ∧ w ≠ ci ∧
      (fiftyFifty dec pick q).answerIndex = none ∧
      (fiftyFifty dec pick q).choices =
        (if ci < w then [q.choices.getD ci "", q.choices.getD w ""]
         else [q.choices.getD w "", q.choices.getD ci ""]) := by
  obtain ⟨-, hcilen, -⟩ :=
    findIdx?_some_spec (fun c => dec c == dec q.correct) "" q.choices 0 ci hci
  rw [Nat.sub_zero] at hcilen
  have hw1 : (List.range q.choices.length).filter
      (fun i => (some ci : Option Nat) != some i) =
      (List.range q.choices.length).filter (fun i => !(ci == i)) := by
    apply List.filter_congr
    intro a _
    simp [bne]
  have hwlen : ((List.range q.choices.length).filter
      (fun i => !(ci == i))).length = q.choices.length - 1 :=
    length_filter_range_ne _ ci hcilen
  have hpick' : pick < ((List.range q.choices.length).filter
      (fun i => !(ci == i))).length := by omega
  obtain ⟨w, hwp⟩ : ∃ w, ((List.range q.choices.length).filter
      (fun i => !(ci == i)))[pick]? = some w := by
    rw [List.getElem?_eq_getElem hpick']
    exact ⟨_, rfl⟩
  have hwmem := List.getElem?_mem hwp
  rw [List.mem_filter, List.mem_range] at hwmem
  have hwne : w ≠ ci := by
    have := hwmem.2
    simp at this
    omega
  refine ⟨w, hwmem.1, hwne, ?_, ?_⟩
  · simp [fiftyFifty]
  · have hch : (fiftyFifty dec pick q).choices =
        filterIdxFrom (fun i =>
          ((some ci : Option Nat) == some i ||
           ((List.range q.choices.length).filter (fun i => !(ci == i)))[pick]? == some i))
          0 q.choices := by
      simp only [fiftyFifty, filterIdx, hci, hw1]
    rw [hch, hwp]
    rcases Nat.lt_or_ge ci w with hlt | hge
    · rw [if_pos hlt]
      have hcongr : filterIdxFrom (fun i =>
          ((some ci : Option Nat) == some i || (some w : Option Nat) == some i)) 0 q.choices =
          filterIdxFrom (fun i => (ci == i || w == i)) 0 q.choices := by
        apply filterIdxFrom_congr
        intro i _
        simp
      rw [hcongr]
      have hp := filterIdxFrom_pair ci w "" hlt q.choices 0 (Nat.zero_le _)
        (by omega)
      simpa using hp
    · have hlt2 : w < ci := by omega
      rw [if_neg (by omega)]
      have hcongr : filterIdxFrom (fun i =>
          ((some ci : Option Nat) == some i || (some w : Option Nat) == some i)) 0 q.choices =
          filterIdxFrom (fun i => (w == i || ci == i)) 0 q.choices := by
        apply filterIdxFrom_congr
        intro i _
        simp [Bool.or_comm]
      rw [hcongr]
      have hp := filterIdxFrom_pair w ci "" hlt2 q.choices 0 (Nat.zero_le _)
        (by omega)
      simpa using hp

/-- C5 counterexample: on a four-choice question whose selected answer
is the correct choice (index 0, text "A"), applying the 50/50 clue
retains that choice (it is still at index 0 of the two remaining
choices), yet `answerIndex` is reset to null — refuting the claim that
the selection is kept whenever the previously selected choice still
maps to a retained choice. -/
theorem C5_counterexample :
    (fourChoiceState.questions.getD 0 default).answerIndex = some 0 ∧
    ((applyClue id 0 "5050" fourChoiceState).1.questions.getD 0 default).choices.getD 0 "" =
      (fourChoiceState.questions.getD 0 default).choices.getD 0 "" ∧
    ((applyClue id 0 "5050" fourChoiceState).1.questions.getD 0 default).answerIndex =
      none := by
  decide

/-- C5 (amended): a successful FiftyFifty replaces `choices` by the
two-element list keeping, in original order, the correct choice and one
randomly drawn incorrect choice — but `selectedIndex` is always reset
to null, even when the previously selected choice is retained. -/
theorem C5_fiftyfifty_amended (dec : String → String) (pick : Nat) (s : QuizState)
    (hcur : s.current < s.questions.length)
    (hclues : s.cluesLeft ≠ 0) (hused : "5050" ∉ s.usedClueTypes)
    (ci : Nat)
    (hci : (s.questions.getD s.current default).choices.findIdx?
        (fun c => dec c == dec (s.questions.getD s.current default).correct) = some ci)
    (huniq : ∀ j, j < (s.questions.getD s.current default).choices.length →
        dec ((s.questions.getD s.current default).choices.getD j "") =
          dec (s.questions.getD s.current default).correct → j = ci)
    (hpick : pick + 1 < (s.questions.getD s.current default).choices.length) :
    ∃ w : Nat,
      w < (s.questions.getD s.current default).choices.length ∧ w ≠ ci ∧
      dec ((s.questions.getD s.current default).choices.getD w "") ≠
        dec (s.questions.getD s.current default).correct ∧
      ((applyClue dec pick "5050" s).1.questions.getD s.current default).answerIndex = none ∧
      ((applyClue dec pick "5050" s).1.questions.getD s.current default).choices =
        (if ci < w then
          [(s.questions.getD s.current default).choices.getD ci "",
           (s.questions.getD s.current default).choices.getD w ""]
         else
          [(s.questions.getD s.current default).choices.getD w "",
           (s.questions.getD s.current default).choices.getD ci ""]) ∧
      ((applyClue dec pick "5050" s).1.questions.getD s.current default).choices.length =
        2 := by
  have hgl : (applyClue dec pick "5050" s).1.questions.getD s.current default =
      fiftyFifty dec pick (s.questions.getD s.current default) := by
    have happ : (applyClue dec pick "5050" s).1.questions =
        s.questions.set s.current
          (fiftyFifty dec pick (s.questions.getD s.current default)) := by
      have hp : ("5050" : String) ∉ objectProtoKeys := by decide
      simp [applyClue, hclues, hused, hp]
    rw [happ, List.getD_eq_getElem?_getD, List.getElem?_set_self hcur]
    rfl
  obtain ⟨w, hwlen, hwne, hans, hch⟩ :=
    fiftyFifty_spec dec pick (s.questions.getD s.current default) ci hci hpick
  refine ⟨w, hwlen, hwne, ?_, ?_, ?_, ?_⟩
  · intro hde
    exact hwne (huniq w hwlen hde)
  · rw [hgl]; exact hans
  · rw [hgl]; exact hch
  · rw [hgl, hch]
    split <;> rfl

/-- Witness for C5 (amended): on the concrete four-choice session the
selection is cleared by the 50/50 clue. -/
theorem C5_fiftyfifty_amended_witness :
    ((applyClue id 0 "5050" fourChoiceState).1.questions.getD fourChoiceState.current
      default).answerIndex = none := by
  obtain ⟨w, -, -, -, hans, -, -⟩ := C5_fiftyfifty_amended id 0 fourChoiceState
    (by decide) (by decide) (by decide) 0 (by decide) (by decide) (by decide)
  exact hans

/-
Claim C8.
-/

theorem mem_specInsert (x : Nat × String × Nat) (l : List (Nat × String × Nat))
    (y : Nat × String × Nat) : y ∈ specInsert x l ↔ y = x ∨ y ∈ l := by
  induction l with
  | nil => simp [specInsert]
  | cons z zs ih =>
      simp only [specInsert]
      by_cases h : lexBeforeB x z = true
      · rw [if_pos h]
        simp
      · rw [if_neg h]
        simp only [List.mem_cons, ih]
        tauto

theorem mem_specSort (l : List (Nat × String × Nat)) (y : Nat × String × Nat) :
    y ∈ specSort l ↔ y ∈ l := by
  induction l with
  | nil => simp [specSort]
  | cons x xs ih =>
      simp only [specSort, mem_specInsert, ih, List.mem_cons]

/-- When the inserted element's position precedes every position in the
list, insertion by the spec order agrees with the implementation's
stable insertion by descending count. -/
theorem map_snd_specInsert (x : Nat × String × Nat) (l : List (Nat × String × Nat))
    (hx : ∀ q ∈ l, x.1 < q.1) :
    (specInsert x l).map Prod.snd = stableInsertDesc x.2 (l.map Prod.snd) := by
  induction l with
  | nil => rfl
  | cons y ys ih =>
      have hxy : x.1 < y.1 := hx y (by simp)
      simp only [specInsert, List.map_cons, stableInsertDesc]
      by_cases h : y.2.2 ≤ x.2.2
      · have hb : lexBeforeB x y = true := by
          simp [lexBeforeB]
          omega
        rw [if_pos hb, if_pos h]
        simp
      · have hb : ¬ lexBeforeB x y = true := by
          simp [lexBeforeB]
          omega
        rw [if_neg hb, if_neg h, List.map_cons, ih (fun q hq => hx q (by simp [hq]))]

/-- With strictly increasing positions, sorting by the spec order agrees
with the implementation's stable sort by descending count. -/
theorem map_snd_specSort (l : List (Nat × String × Nat))
    (hp : l.Pairwise (fun p q => p.1 < q.1)) :
    (specSort l).map Prod.snd = stableSortDesc (l.map Prod.snd) := by
  induction l with
  | nil => rfl
  | cons x xs ih =>
      rw [List.pairwise_cons] at hp
      simp only [specSort, List.map_cons, stableSortDesc]
      rw [map_snd_specInsert x (specSort xs)
        (fun q hq => hp.1 q ((mem_specSort xs q).mp hq)), ih hp.2]

/-- Enumeration positions are strictly increasing. -/
theorem pairwise_fst_lt_enumFrom {α : Type} :
    ∀ (l : List α) (n : Nat),
      (List.enumFrom n l).Pairwise (fun p q => p.1 < q.1) := by
  intro l
  induction l with
  | nil => intro n; simp
  | cons x xs ih =>
      intro n
      simp only [List.enumFrom]
      rw [List.pairwise_cons]
      refine ⟨?_, ih (n + 1)⟩
      rintro ⟨qi, qx⟩ hq
      have hm := List.mem_enumFrom hq
      simp only
      omega

theorem length_stableInsertDesc (x : String × Nat) (l : List (String × Nat)) :
    (stableInsertDesc x l).length = l.length + 1 := by
  induction l with
  | nil => rfl
  | cons y ys ih =>
      simp only [stableInsertDesc]
      by_cases h : y.2 ≤ x.2
      · rw [if_pos h]
        rfl
      · rw [if_neg h]
        simp [ih]

theorem length_stableSortDesc (l : List (String × Nat)) :
    (stableSortDesc l).length = l.length := by
  induction l with
  | nil => rfl
  | cons x xs ih =>
      simp only [stableSortDesc]
      rw [length_stableInsertDesc, ih]
      rfl

/-- The keys of the frequency map after one insertion. -/
theorem bumpTok_keys (m : List (String × Nat)) (t : String) :
    (bumpTok m t).map Prod.fst =
      if t ∈ m.map Prod.fst then m.map Prod.fst else m.map Prod.fst ++ [t] := by
  unfold bumpTok
  by_cases h : m.any (fun p => p.1 == t) = true
  · have ht : t ∈ m.map Prod.fst := by
      rw [List.any_eq_true] at h
      obtain ⟨p, hp, hpt⟩ := h
      rw [List.mem_map]
      exact ⟨p, hp, by simpa using hpt⟩
    rw [if_pos h, if_pos ht, List.map_map]
    apply List.map_congr_left
    intro p _
    simp only [Function.comp_apply]
    split <;> rfl
  · have ht : ¬ t ∈ m.map Prod.fst := by
      intro hmem
      rw [List.mem_map] at hmem
      obtain ⟨p, hp, hpt⟩ := hmem
      exact absurd (List.any_eq_true.mpr ⟨p, hp, by simp [hpt]⟩) h
    rw [if_neg h, if_neg ht, List.map_append]
    rfl

/-- The key list of the frequency map is built exactly like the
first-encounter fold. -/
theorem freq_keys_general :
    ∀ (ts : List String) (m : List (String × Nat)),
      (ts.foldl bumpTok m).map Prod.fst =
        ts.foldl (fun acc t => if t ∈ acc then acc else acc ++ [t]) (m.map Prod.fst) := by
  intro ts
  induction ts with
  | nil => intro m; rfl
  | cons t ts ih =>
      intro m
      rw [List.foldl_cons, List.foldl_cons, ih, bumpTok_keys]

/-- One insertion preserves the count bookkeeping of the frequency map:
every entry holds the number of occurrences of its key among the tokens
folded so far, and absent keys have occurred zero times. -/
theorem bumpTok_counts (m : List (String × Nat)) (t : String) (pre : List String)
    (h1 : ∀ p ∈ m, p.2 = pre.count p.1)
    (h2 : ∀ w, ¬ w ∈ m.map Prod.fst → pre.count w = 0) :
    (∀ p ∈ bumpTok m t, p.2 = (pre ++ [t]).count p.1) ∧
    (∀ w, ¬ w ∈ (bumpTok m t).map Prod.fst → (pre ++ [t]).count w = 0) := by
  constructor
  · intro p hp
    unfold bumpTok at hp
    by_cases hany : m.any (fun p => p.1 == t) = true
    · rw [if_pos hany] at hp
      obtain ⟨q, hq, rfl⟩ := List.mem_map.mp hp
      by_cases hqt : (q.1 == t) = true
      · have hqe : q.1 = t := by simpa using hqt
        rw [if_pos hqt]
        simp only
        rw [h1 q hq, List.count_append, hqe]
        simp [List.count_cons]
      · have hne : ¬ q.1 = t := by simpa using hqt
        rw [if_neg hqt, h1 q hq, List.count_append]
        have hbe : (t == q.1) = false := by
          rw [beq_eq_false_iff_ne]
          exact fun he => hne he.symm
        simp [List.count_cons, hbe]
    · rw [if_neg hany] at hp
      rcases List.mem_append.mp hp with hpm | hpt
      · have hall : (p.1 == t) = false := by
          by_contra hc
          have hct : (p.1 == t) = true := by
            revert hc
            cases (p.1 == t) <;> simp
          exact absurd (List.any_eq_true.mpr ⟨p, hpm, hct⟩) hany
        have hne : ¬ p.1 = t := by simpa using hall
        rw [h1 p hpm, List.count_append]
        have hbe : (t == p.1) = false := by
          rw [beq_eq_false_iff_ne]
          exact fun he => hne he.symm
        simp [List.count_cons, hbe]
      · have hp1 : p = (t, 1) := by simpa using hpt
        subst hp1
        simp only
        rw [List.count_append]
        have h0 : pre.count t = 0 := by
          apply h2
          intro hmem
          obtain ⟨q, hq, hqe⟩ := List.mem_map.mp hmem
          have hqt : (q.1 == t) = true := by simp [hqe]
          exact absurd (List.any_eq_true.mpr ⟨q, hq, hqt⟩) hany
        rw [h0]
        simp [List.count_cons]
  · intro w hw
    rw [bumpTok_keys] at hw
    by_cases hmem : t ∈ m.map Prod.fst
    · rw [if_pos hmem] at hw
      have hwt : ¬ w = t := fun he => hw (he ▸ hmem)
      rw [List.count_append, h2 w hw]
      have hbe : (t == w) = false := by
        rw [beq_eq_false_iff_ne]
        exact fun he => hwt he.symm
      simp [List.count_cons, hbe]
    · rw [if_neg hmem] at hw
      rw [List.mem_append] at hw
      push_neg at hw
      rw [List.count_append, h2 w hw.1]
      have hwt : ¬ w = t := by
        intro he
        exact hw.2 (by simp [he])
      have hbe : (t == w) = false := by
        rw [beq_eq_false_iff_ne]
        exact fun he => hwt he.symm
      simp [List.count_cons, hbe]

/-- Folding tokens into the frequency map keeps every entry equal to the
occurrence count of its key. -/
theorem freq_counts_general :
    ∀ (ts : List String) (m : List (String × Nat)) (pre : List String),
      (∀ p ∈ m, p.2 = pre.count p.1) →
      (∀ w, ¬ w ∈ m.map Prod.fst → pre.count w = 0) →
      ∀ p ∈ ts.foldl bumpTok m, p.2 = (pre ++ ts).count p.1 := by
  intro ts
  induction ts with
  | nil =>
      intro m pre h1 h2 p hp
      rw [List.append_nil]
      exact h1 p hp
  | cons t ts ih =>
      intro m pre h1 h2 p hp
      rw [List.foldl_cons] at hp
      obtain ⟨g1, g2⟩ := bumpTok_counts m t pre h1 h2
      have hres := ih (bumpTok m t) (pre ++ [t]) g1 g2 p hp
      rw [List.append_assoc] at hres
      exact hres

/-- C8: the keywords hint reports exactly the spec's selection — rank
the distinct tokens (lowercase alphanumeric words of length > 3 of the
decoded prompt, stopwords removed) by descending frequency with ties
broken by first-encounter order, and keep up to five; the frequency
entries carry the distinct tokens in first-encounter order with their
true occurrence counts, and the report length is the smaller of five
and the number of distinct tokens. -/
theorem C8_keywords_ranking (dec : String → String) (prompt : String) :
    topKeywords dec prompt = specKeywords dec prompt ∧
    (freqEntries (kwTokens dec prompt)).map Prod.fst = seenKeys (kwTokens dec prompt) ∧
    (∀ p ∈ freqEntries (kwTokens dec prompt),
        p.2 = (kwTokens dec prompt).count p.1) ∧
    (topKeywords dec prompt).length =
      min 5 (freqEntries (kwTokens dec prompt)).length := by
  refine ⟨?_, ?_, ?_, ?_⟩
  · unfold topKeywords specKeywords
    have hpw : (List.enum (freqEntries (kwTokens dec prompt))).Pairwise
        (fun p q => p.1 < q.1) := pairwise_fst_lt_enumFrom _ 0
    have hms := map_snd_specSort _ hpw
    rw [List.enum_map_snd] at hms
    have h1 : ((specSort (List.enum (freqEntries (kwTokens dec prompt)))).take 5).map
        (fun p => p.2.1) =
        (((specSort (List.enum (freqEntries (kwTokens dec prompt)))).take 5).map
          Prod.snd).map Prod.fst := by
      rw [List.map_map]
      rfl
    have h2 : ((specSort (List.enum (freqEntries (kwTokens dec prompt)))).take 5).map
        Prod.snd = (stableSortDesc (freqEntries (kwTokens dec prompt))).take 5 := by
      rw [List.map_take, hms]
    rw [h1, h2]
  · have := freq_keys_general (kwTokens dec prompt) []
    simpa [freqEntries, seenKeys] using this
  · intro p hp
    have := freq_counts_general (kwTokens dec prompt) [] [] (by simp) (by simp) p hp
    simpa using this
  · unfold topKeywords
    rw [List.length_map, List.length_take, length_stableSortDesc]

/-- Witness for C8: on a concrete prompt the frequency entry for "wolf"
carries its true occurrence count. -/
theorem C8_keywords_ranking_witness :
    (("wolf", 2) : String × Nat).2 =
      (kwTokens id "wolf wolf bear bear bear tiger").count "wolf" := by
  exact (C8_keywords_ranking id "wolf wolf bear bear bear tiger").2.2.1
    ("wolf", 2) (by decide)
